import Mathlib

/-!
Verification of the X-Feed-Reader core against its specification.

This file shallowly embeds the relevant parts of the repository:

* `src/src/scraper.py` — the DOM extraction engine (`_parse_tweet` and its
  sub-extractors) and the feed acquisition loop (`scrape_feed`);
* `src/src/utils.py` — `validate_url`;
* `src/src/database.py` — `cleanup_old_tweets` (retention trimming);
* `src/web/services/pipeline_service.py` — `_store_tweets_batch` (ingestion)
  and `run_user_pipeline` (orchestration);
* `src/web/services/feed_providers/twitter_api.py` — `_transform_tweet`;
* `src/web/scheduler_tasks.py` — `enqueue_due_users`.

Python strings are modelled as `List Char` (operated on via `String.data`);
machine integers are `Nat` (no overflow is relevant — Python ints are
unbounded).  Timestamps are modelled as `Nat` instants where only their
ordering matters, and ISO-8601 datetime *parsing* (`parse_timestamp`) is
abstracted: the raw attribute string is carried through, since no claim
depends on calendar arithmetic.  String functions restrict Unicode-aware
Python behaviour (`str.upper`, `str.isdigit`, `\d`) to ASCII, which is the
alphabet of every input any claim touches.
-/

/-! ## Python string primitives over `List Char` -/

/-- ASCII model of `str.upper` on a single character. -/
def pyUpperChar (c : Char) : Char :=
  if 'a' ≤ c ∧ c ≤ 'z' then Char.ofNat (c.toNat - 32) else c

/-- ASCII model of `str.lower` on a single character. -/
def pyLowerChar (c : Char) : Char :=
  if 'A' ≤ c ∧ c ≤ 'Z' then Char.ofNat (c.toNat + 32) else c

/-- Model of `str.upper`. -/
def pyUpper (cs : List Char) : List Char := cs.map pyUpperChar

/-- Model of `str.lower`. -/
def pyLower (cs : List Char) : List Char := cs.map pyLowerChar

/-- Model of `str.strip()` (remove leading/trailing whitespace). -/
def pyStrip (cs : List Char) : List Char :=
  ((cs.dropWhile Char.isWhitespace).reverse.dropWhile Char.isWhitespace).reverse

/-- `int` of a nonempty decimal-digit string. -/
def digitsToNat (cs : List Char) : Nat :=
  cs.foldl (fun n c => n * 10 + (c.toNat - '0'.toNat)) 0

/-- Model of `str.isdigit` (ASCII): nonempty and all digits. -/
def pyIsDigit (cs : List Char) : Bool :=
  !cs.isEmpty && cs.all Char.isDigit

/-- If `pre` is an initial segment of `l`, return the remainder. -/
def dropPre : List Char → List Char → Option (List Char)
  | [], l => some l
  | _ :: _, [] => none
  | p :: ps, c :: cs => if p = c then dropPre ps cs else none

/-- Model of Python's substring test `needle in hay`. -/
def containsSub (needle : List Char) : List Char → Bool
  | [] => (dropPre needle []).isSome
  | c :: t => (dropPre needle (c :: t)).isSome || containsSub needle t

/-- `s.startswith(p)` for one pattern. -/
def startsWithList (p s : List Char) : Bool := (dropPre p s).isSome

/-- `s.startswith(tuple_of_patterns)`. -/
def startsWithAny (ps : List (List Char)) (s : List Char) : Bool :=
  ps.any (fun p => startsWithList p s)

/-! ## `src/src/utils.py` : `validate_url` -/

/-- URL scheme per `urllib.parse.urlparse`: the part before the first `:`,
provided it is nonempty, starts with a letter, and otherwise contains only
letters, digits, `+`, `-`, `.`.  Returns `(scheme?, rest-after-colon-or-whole)`. -/
def urlSchemeSplit (cs : List Char) : Option (List Char) × List Char :=
  let before := cs.takeWhile (· ≠ ':')
  let after := (cs.dropWhile (· ≠ ':')).drop 1
  if (':' ∈ cs)
      ∧ before ≠ []
      ∧ (before.headD ' ').isAlpha
      ∧ before.all (fun c => c.isAlphanum ∨ c = '+' ∨ c = '-' ∨ c = '.')
  then (some (pyLower before), after)
  else (none, cs)

/-- `urlparse` netloc: present only when the post-scheme part begins `//`;
runs up to the next `/`, `?` or `#`. -/
def urlNetloc (rest : List Char) : List Char :=
  match dropPre ['/', '/'] rest with
  | some r => r.takeWhile (fun c => ¬ (c = '/' ∨ c = '?' ∨ c = '#'))
  | none => []

/-- Model of `validate_url` (`src/src/utils.py`): scheme in {http, https}
and nonempty netloc. -/
def validate_url (url : String) : Bool :=
  let (scheme?, rest) := urlSchemeSplit url.data
  match scheme? with
  | some s => (s = "http".data ∨ s = "https".data) ∧ urlNetloc rest ≠ []
  | none => false

/-! ## `XFeedScraper._extract_engagement` (src/src/scraper.py 507–552) -/

/-- Scraper constants from `src/src/scraper.py`. -/
def MAX_CONSECUTIVE_KNOWN : Nat := 3

def SCROLL_MULTIPLIER : Nat := 2

/-- The suffix test of the compact-count fallback: `text.endswith('K')`
peels a ×1000 multiplier, `text.endswith('M')` a ×1000000 one
(`text = text[:-1]` in both cases). -/
def kmSplit (t : List Char) : Nat × List Char :=
  if t.getLast? = some 'K' then (1000, t.dropLast)
  else if t.getLast? = some 'M' then (1000000, t.dropLast)
  else (1, t)

/-- The human-readable-count fallback of `_extract_engagement`
(`src/src/scraper.py` lines 533–547): strip/uppercase, peel a `K`/`M`
suffix into a multiplier, delete `,` and `.`, then `int` if all digits. -/
def parseCompactCount (text : String) : Option Nat :=
  let t := pyUpper (pyStrip text.data)
  let p := kmSplit t
  let cleaned := p.2.filter (fun c => ¬ (c = ',' ∨ c = '.'))
  if pyIsDigit cleaned then some (digitsToNat cleaned * p.1) else none

/-- One engagement button (`[data-testid='<metric>']`): its `aria-label`
attribute and the inner `span span` text, each possibly absent. -/
structure EngButton where
  ariaLabel : Option String
  spanText : Option String
deriving DecidableEq

/-- First maximal run matching `[\d,]+` (the regex in the aria-label path). -/
def firstNumRun : List Char → Option (List Char)
  | [] => none
  | c :: t =>
    if c.isDigit ∨ c = ',' then
      some ((c :: t).takeWhile (fun x => x.isDigit ∨ x = ','))
    else firstNumRun t

/-- Model of `_extract_engagement`: aria-label first (`[\d,]+` then `int`
after comma removal — `int('')` raises, which the enclosing `except`
turns into `None`), else the compact-count fallback on the span text. -/
def extract_engagement (button : Option EngButton) : Option Nat :=
  match button with
  | none => none
  | some b =>
    let spanPath : Option Nat :=
      match b.spanText with
      | some txt => if txt.data ≠ [] then parseCompactCount txt else none
      | none => none
    match b.ariaLabel with
    | some al =>
      match firstNumRun al.data with
      | some run =>
        let ds := run.filter (· ≠ ',')
        if ds ≠ [] then some (digitsToNat ds) else none
      | none => spanPath
    | none => spanPath

/-! ## The FeedRecord / tweet dict

The canonical tweet dictionary built by `_parse_tweet` and, identically
keyed, by `TwitterAPIProvider._transform_tweet`.  Python `None` is `none`;
a missing/`None` id is the empty string (both are falsy in every guard the
code applies to it).  `media_urls` is `Option (List String)` because the
API provider stores `None` (`media_urls or None`) while the scraper stores
a plain (possibly empty) list, modelled as `some`. -/

structure RawRecord where
  id : String
  author_handle : Option String
  author_name : Option String
  content : Option String
  timestamp : Option String
  likes : Option Nat
  retweets : Option Nat
  replies : Option Nat
  media_urls : Option (List String)
  is_retweet : Bool
  original_author : Option String
  is_reply : Bool
  reply_to_handle : Option String
deriving DecidableEq

/-- The freshly initialised dict at the top of `_parse_tweet`. -/
def emptyRecord : RawRecord :=
  { id := "", author_handle := none, author_name := none, content := none,
    timestamp := none, likes := none, retweets := none, replies := none,
    media_urls := some [], is_retweet := false, original_author := none,
    is_reply := false, reply_to_handle := none }

/-! ## The rendered article (DOM model)

One `article[data-testid='tweet']` element, reduced to exactly the query
results `_parse_tweet` and its sub-extractors read. -/

/-- One `a[href^='/'][role='link']` element: its `href` attribute, the
inner `span` text (if a span exists) and its own `inner_text()`. -/
structure UserLink where
  href : Option String
  spanText : Option String
  innerText : String
deriving DecidableEq

structure Article where
  /-- `href`s of the `a[href*='/status/']` links, in document order. -/
  statusHrefs : List (Option String)
  /-- `closest('a').href` of the `a time` element, when present. -/
  timeParentHref : Option String
  /-- `inner_text()` of `[data-testid='socialContext']`, when present. -/
  socialContext : Option String
  /-- the `a[href^='/'][role='link']` elements, in document order. -/
  userLinks : List UserLink
  /-- `inner_text()` of `[data-testid='tweetText']`, when present. -/
  tweetText : Option String
  /-- `datetime` attribute of the `time` element, when present and set. -/
  timeDatetime : Option String
  likeButton : Option EngButton
  retweetButton : Option EngButton
  replyButton : Option EngButton
  /-- `src` attributes of `[data-testid='tweetPhoto'] img`, in order. -/
  mediaSrcs : List (Option String)
  /-- number of `[data-testid='User-Name']` cells. -/
  userNameCount : Nat
  /-- `inner_text()` of the whole article. -/
  articleText : String

/-! ## `XFeedScraper._extract_tweet_id` (src/src/scraper.py 474–505) -/

/-- `re.search(r"/status/(\d+)", s)`: the first maximal digit run that
directly follows an occurrence of `/status/`, if any. -/
def statusSearch : List Char → Option (List Char)
  | [] => none
  | c :: t =>
    match dropPre "/status/".data (c :: t) with
    | some rest =>
      let ds := rest.takeWhile Char.isDigit
      if ds ≠ [] then some ds else statusSearch t
    | none => statusSearch t

/-- The `for link in links` loop over the `/status/` links. -/
def firstStatusId : List (Option String) → Option String
  | [] => none
  | none :: rest => firstStatusId rest
  | some h :: rest =>
    match statusSearch h.data with
    | some ds => some (String.mk ds)
    | none => firstStatusId rest

/-- Model of `_extract_tweet_id`: scan the `/status/` links, then fall back
to the `a time` parent link. -/
def extract_tweet_id (a : Article) : Option String :=
  match firstStatusId a.statusHrefs with
  | some s => some s
  | none =>
    match a.timeParentHref with
    | some href => (statusSearch href.data).map String.mk
    | none => none

/-! ## `XFeedScraper._extract_author_info` (src/src/scraper.py 399–423) -/

def excludedHandles : List (List Char) :=
  ["search".data, "explore".data, "home".data, "notifications".data,
   "messages".data, "i/".data]

/-- Model of the `for link in user_links` loop of `_extract_author_info`.
Note the source's `break` sits at the end of the
`if not handle.startswith(excluded_prefixes)` block, *outside* the
`if/elif`, so the loop always ends after the first non-excluded
single-segment profile link. -/
def extract_author_info : List UserLink → RawRecord → RawRecord
  | [], td => td
  | l :: rest, td =>
    match l.href with
    | none => extract_author_info rest td
    | some href =>
      if startsWithList ['/'] href.data ∧ ¬ ('/' ∈ href.data.drop 1) then
        if ¬ startsWithAny excludedHandles (href.data.drop 1) then
          if td.author_handle = none then
            { td with
              author_handle := some (String.mk (href.data.drop 1)),
              author_name := match l.spanText with
                | some s => some s
                | none => td.author_name }
          else if td.is_retweet ∧ td.original_author = none then
            { td with
              original_author := td.author_handle,
              author_handle := some (String.mk (href.data.drop 1)) }
          else td
        else extract_author_info rest td
      else extract_author_info rest td

/-! ## `XFeedScraper._extract_reply_context` (src/src/scraper.py 425–472) -/

def replyIndicators : List (List Char) :=
  ["replying to".data, "antwort an".data, "in reply to".data,
   "als antwort".data]

/-- The method-1 loop: first `@handle` profile link whose handle differs
from the primary author sets `is_reply` and `reply_to_handle`. -/
def replyLinkLoop : List UserLink → RawRecord → RawRecord
  | [], td => td
  | l :: rest, td =>
    let text := l.innerText.data
    let hrefOk : Bool :=
      match l.href with
      | some h => startsWithList ['/'] h.data && ¬ ('/' ∈ h.data.drop 1)
      | none => false
    if startsWithList ['@'] text ∧ hrefOk
        ∧ td.author_handle ≠ some (String.mk (text.drop 1)) then
      { td with is_reply := true,
                reply_to_handle := some (String.mk (text.drop 1)) }
    else replyLinkLoop rest td

/-- Model of `_extract_reply_context`: textual "replying to" indicators
(method 1), else more than one `User-Name` cell (method 2). -/
def extract_reply_context (a : Article) (td : RawRecord) : RawRecord :=
  let textL := pyLower a.articleText.data
  let isReplyByText := replyIndicators.any (fun i => containsSub i textL)
  let td := if isReplyByText then replyLinkLoop a.userLinks td else td
  if ¬ td.is_reply ∧ a.userNameCount > 1 then
    { td with is_reply := true }
  else td

/-! ## `XFeedScraper._extract_media_urls` (src/src/scraper.py 554–574) -/

/-- Model of `_extract_media_urls`: keep each truthy `src` that passes
`validate_url`, preserving order.  Always a (possibly empty) list. -/
def extract_media_urls (srcs : List (Option String)) : List String :=
  match srcs with
  | [] => []
  | none :: rest => extract_media_urls rest
  | some src :: rest =>
    if src.data ≠ [] ∧ validate_url src then
      src :: extract_media_urls rest
    else extract_media_urls rest

/-! ## `XFeedScraper._parse_tweet` (src/src/scraper.py 329–397) -/

/-- Model of `_parse_tweet`.  Resolves the tweet id first and returns
`none` when it is absent; otherwise runs every sub-extraction.
(`parse_timestamp` is abstracted: the raw `datetime` attribute is
stored.) -/
def parse_tweet (a : Article) : Option RawRecord :=
  match extract_tweet_id a with
  | none => none
  | some tid =>
    if tid = "" then none
    else
      let td := { emptyRecord with id := tid }
      let td :=
        match a.socialContext with
        | some txt =>
          if containsSub "reposted".data (pyLower txt.data)
              ∨ containsSub "retweeted".data (pyLower txt.data) then
            { td with is_retweet := true }
          else td
        | none => td
      let td := extract_author_info a.userLinks td
      let td :=
        match a.tweetText with
        | some t => { td with content := some t }
        | none => td
      let td := extract_reply_context a td
      let td :=
        match a.timeDatetime with
        | some d => { td with timestamp := some d }
        | none => td
      let td := { td with
        likes := extract_engagement a.likeButton,
        retweets := extract_engagement a.retweetButton,
        replies := extract_engagement a.replyButton }
      some { td with media_urls := some (extract_media_urls a.mediaSrcs) }

/-! ## `XFeedScraper.scrape_feed` (src/src/scraper.py 206–287)

The browser I/O is abstracted as `feed : Nat → List α`: the articles the
`query_selector_all` call returns on scroll pass `k` (a transient query
failure is a pass with `[]`, exactly the source's handling), and
`parse : α → Option RawRecord` standing for `_parse_tweet`.  The `while`
loop is embedded with a fuel argument instantiated at `max_scrolls`; the
guard re-checks `scroll_count < max_scrolls`, and since every iteration
increments `scroll_count`, fuel `max_scrolls - scroll_count` is never the
binding constraint, making the embedding exact. -/

structure ScrapeState where
  tweets : List RawRecord
  seen : List String
  consecutiveKnown : Nat
deriving DecidableEq

/-- Outcome of the `for article in articles` pass: `stopped` is the early
`return tweets` on the consecutive-known threshold. -/
inductive PassResult where
  | stopped (ts : List RawRecord)
  | continued (s : ScrapeState)
deriving DecidableEq

/-- `stop_on_known and known_checker and known_checker(id)`. -/
def checkerKnown (stopOnKnown : Bool) (kc : Option (String → Bool))
    (tid : String) : Bool :=
  stopOnKnown && (match kc with | some f => f tid | none => false)

/-- The `for article in articles` body of `scrape_feed` (lines 255–272). -/
def processArticles {α : Type} (maxTweets : Nat) (stopOnKnown : Bool)
    (kc : Option (String → Bool)) (parse : α → Option RawRecord) :
    List α → ScrapeState → PassResult
  | [], s => .continued s
  | art :: rest, s =>
    if s.tweets.length ≥ maxTweets then .continued s
    else
      match parse art with
      | none => processArticles maxTweets stopOnKnown kc parse rest s
      | some t =>
        if t.id ≠ "" ∧ ¬ (t.id ∈ s.seen) then
          let s' : ScrapeState := { s with seen := t.id :: s.seen }
          if checkerKnown stopOnKnown kc t.id then
            if s'.consecutiveKnown + 1 ≥ MAX_CONSECUTIVE_KNOWN then
              .stopped s'.tweets
            else
              processArticles maxTweets stopOnKnown kc parse rest
                { s' with consecutiveKnown := s'.consecutiveKnown + 1 }
          else
            processArticles maxTweets stopOnKnown kc parse rest
              { s' with consecutiveKnown := 0, tweets := s'.tweets ++ [t] }
        else processArticles maxTweets stopOnKnown kc parse rest s

/-- The `while len(tweets) < max_tweets and scroll_count < max_scrolls`
loop.  Returns the collected batch and the number of scroll steps
performed. -/
def scrapeAux {α : Type} (feed : Nat → List α) (parse : α → Option RawRecord)
    (maxTweets maxScrolls : Nat) (stopOnKnown : Bool)
    (kc : Option (String → Bool)) :
    Nat → Nat → ScrapeState → List RawRecord × Nat
  | 0, scrollCount, s => (s.tweets, scrollCount)
  | fuel + 1, scrollCount, s =>
    if s.tweets.length < maxTweets ∧ scrollCount < maxScrolls then
      match processArticles maxTweets stopOnKnown kc parse (feed scrollCount) s with
      | .stopped ts => (ts, scrollCount)
      | .continued s' =>
        scrapeAux feed parse maxTweets maxScrolls stopOnKnown kc
          fuel (scrollCount + 1) s'
    else (s.tweets, scrollCount)

/-- Model of `scrape_feed`: `max_scrolls = max_tweets * SCROLL_MULTIPLIER`,
empty state, scroll counter 0. -/
def scrape_feed {α : Type} (feed : Nat → List α)
    (parse : α → Option RawRecord) (maxTweets : Nat) (stopOnKnown : Bool)
    (kc : Option (String → Bool)) : List RawRecord × Nat :=
  let maxScrolls := maxTweets * SCROLL_MULTIPLIER
  scrapeAux feed parse maxTweets maxScrolls stopOnKnown kc
    maxScrolls 0 ⟨[], [], 0⟩

/-! ## `_store_tweets_batch` (src/web/services/pipeline_service.py 152–204) -/

/-- One `web_tweets` row: the two columns of the `uq_tweet_user` unique
constraint, the `scraped_at` storage instant, and the remaining columns
carried as the record they were copied from. -/
structure StoredTweet where
  tweet_id : String
  user_id : Nat
  scraped_at : Nat
  payload : RawRecord
deriving DecidableEq

/-- The insert loop of `_store_tweets_batch`: skip falsy ids and ids
already existing for this tenant, append the rest. -/
def insertNewTweets (userId now : Nat) (existingIds : List String) :
    List RawRecord → List StoredTweet
  | [] => []
  | t :: rest =>
    if t.id = "" ∨ t.id ∈ existingIds then
      insertNewTweets userId now existingIds rest
    else
      ⟨t.id, userId, now, t⟩ :: insertNewTweets userId now existingIds rest

/-- Model of `_store_tweets_batch`: batch existence check (one query over
all candidate ids for this tenant), then insert only the new ones.
Returns `(new_count, table-after)`. -/
def store_tweets_batch (userId now : Nat) (raw : List RawRecord)
    (rows : List StoredTweet) : Nat × List StoredTweet :=
  let tweetIds := (raw.map (·.id)).filter (· ≠ "")
  if tweetIds = [] then (0, rows)
  else
    let existingIds :=
      (rows.filter (fun r => r.tweet_id ∈ tweetIds ∧ r.user_id = userId)).map
        (·.tweet_id)
    let newRows := insertNewTweets userId now existingIds raw
    (newRows.length, rows ++ newRows)

/-! ## `Database.cleanup_old_tweets` (src/src/database.py 278–322) -/

/-- One row of the CLI `tweets` table; only `scraped_at` (a `Nat` storage
instant) matters for retention. -/
structure CliTweet where
  scraped_at : Nat
deriving DecidableEq

/-- Model of `cleanup_old_tweets`: no-op when `total <= keep_count`, else
take the `scraped_at` of the `keep_count`-th most recent row (`ORDER BY
scraped_at DESC OFFSET keep_count - 1 LIMIT 1`) and delete every row
strictly older.  Returns `(deleted_count, table-after)`. -/
def cleanup_old_tweets (keep_count : Nat) (rows : List CliTweet) :
    Nat × List CliTweet :=
  let total := rows.length
  if total ≤ keep_count then (0, rows)
  else
    match (List.insertionSort (fun a b : Nat => a ≥ b)
        (rows.map (·.scraped_at))).get? (keep_count - 1) with
    | none => (0, rows)
    | some cutoff =>
      let deleted := rows.filter (fun r => r.scraped_at < cutoff)
      (deleted.length, rows.filter (fun r => ¬ r.scraped_at < cutoff))

/-! ## `run_user_pipeline` (src/web/services/pipeline_service.py 21–149)

The external collaborators are abstracted as inputs: `raw` is what the
feed provider returned for this run, `summarize` is `generate_summary`
(`.error e` models a raised `SummaryGenerationError e`).  The settings
lookup is an `Option`.  `ORDER BY timestamp DESC` on the
recent-tweets query is not modelled (it only permutes the summarizer
input, which is abstract).  Times are `Nat` instants measured in the
`summary_hours` unit. -/

structure ScrapeRunRec where
  user_id : Nat
  tweets_found : Nat
  tweets_new : Nat
  feed_source : String
  status : String
deriving DecidableEq

structure BriefingRec where
  user_id : Nat
  content : String
  tweet_count : Nat
deriving DecidableEq

structure WebSettings where
  feed_source : String
  summary_hours : Nat
deriving DecidableEq

structure PipelineDB where
  tweets : List StoredTweet
  runs : List ScrapeRunRec
  briefings : List BriefingRec
deriving DecidableEq

/-- `_log_scrape_run`: append one ScrapeRun row and commit. -/
def log_scrape_run (db : PipelineDB) (userId found newCount : Nat)
    (src status : String) : PipelineDB :=
  { db with runs := db.runs ++ [⟨userId, found, newCount, src, status⟩] }

/-- Model of `run_user_pipeline`.  Returns the created briefing (or
`none`) and the database after the run. -/
def run_user_pipeline (userId now : Nat) (settings : Option WebSettings)
    (raw : List RawRecord)
    (summarize : List StoredTweet → Except String String)
    (db : PipelineDB) : Option BriefingRec × PipelineDB :=
  match settings with
  | none => (none, db)
  | some st =>
    if raw.isEmpty then
      (none, log_scrape_run db userId 0 0 st.feed_source "no_tweets")
    else
      let stored := store_tweets_batch userId now raw db.tweets
      let db := { db with tweets := stored.2 }
      let db := log_scrape_run db userId raw.length stored.1
        st.feed_source "completed"
      let recent := db.tweets.filter
        (fun t => t.user_id = userId ∧ now - st.summary_hours ≤ t.scraped_at)
      if recent.isEmpty then (none, db)
      else
        match summarize recent with
        | .error e =>
          (none, log_scrape_run db userId raw.length stored.1
            st.feed_source ("summary_error: " ++ e))
        | .ok text =>
          let b : BriefingRec := ⟨userId, text, recent.length⟩
          (some b, { db with briefings := db.briefings ++ [b] })

/-! ## `enqueue_due_users` (src/web/scheduler_tasks.py 40–88)

`_utc_hour_for_user` (timezone arithmetic) is abstracted: each user row
carries the already-converted UTC hour.  Times are `Nat` instants measured
in hours, so the duplicate-briefing cutoff is `now - DUPLICATE_BRIEFING_HOURS`. -/

def DUPLICATE_BRIEFING_HOURS : Nat := 20

structure SchedUser where
  id : Nat
  is_active : Bool
  sub_status : String
  utc_hour : Nat
deriving DecidableEq

structure SchedBriefing where
  user_id : Nat
  created_at : Nat
deriving DecidableEq

/-- Whether a user has a briefing created within the duplicate window. -/
def hasRecentBriefing (briefings : List SchedBriefing) (uid now : Nat) : Bool :=
  briefings.any
    (fun b => b.user_id = uid ∧ now - DUPLICATE_BRIEFING_HOURS ≤ b.created_at)

/-- Model of `enqueue_due_users`: the ids enqueued in one scheduler tick. -/
def enqueue_due_users (currentHour now : Nat) (users : List SchedUser)
    (briefings : List SchedBriefing) : List Nat :=
  ((users.filter
    (fun u => u.is_active
      ∧ (u.sub_status = "active" ∨ u.sub_status = "trialing")
      ∧ u.utc_hour = currentHour
      ∧ ¬ hasRecentBriefing briefings u.id now)).map (·.id))

/-! ## `TwitterAPIProvider._transform_tweet`
(src/web/services/feed_providers/twitter_api.py 110–160) -/

structure ApiUser where
  name : Option String
  username : Option String
deriving DecidableEq

structure ApiRef where
  ref_type : String
  ref_id : String
deriving DecidableEq

/-- One API v2 tweet object, reduced to the fields `_transform_tweet`
reads.  `public_metrics` and `entities.urls` `get`s are collapsed into
optional fields; each url entity is its `expanded_url` (`""` when the key
is missing). -/
structure ApiTweet where
  id : String
  text : Option String
  created_at : Option String
  author_id : Option String
  like_count : Option Nat
  retweet_count : Option Nat
  reply_count : Option Nat
  referenced : List ApiRef
  entity_urls : Option (List String)
deriving DecidableEq

/-- `dict.get` over an association list keyed by id. -/
def alistGet {β : Type} (k : String) : List (String × β) → Option β
  | [] => none
  | (k', v) :: rest => if k' = k then some v else alistGet k rest

/-- The `for ref in tweet.get("referenced_tweets", [])` loop: later
entries overwrite earlier ones.  Returns
`(is_retweet, original_author, is_reply, reply_to_handle)`. -/
def refLoop (users : List (String × ApiUser))
    (refTweets : List (String × ApiTweet)) :
    List ApiRef → (Bool × Option String × Bool × Option String) →
    Bool × Option String × Bool × Option String
  | [], acc => acc
  | ref :: rest, (irt, oa, irp, rth) =>
    let refAuthor : Option String :=
      ((alistGet ref.ref_id refTweets).bind (·.author_id)).bind
        (fun aid => (alistGet aid users).bind (·.username))
    if ref.ref_type = "retweeted" then
      refLoop users refTweets rest (true, refAuthor, irp, rth)
    else if ref.ref_type = "replied_to" then
      refLoop users refTweets rest (irt, oa, true, refAuthor)
    else refLoop users refTweets rest (irt, oa, irp, rth)

/-- The media-URL selection of `_transform_tweet`: keep an expanded URL
when it contains one of the substrings `.jpg`, `.png`, `.gif`,
`pbs.twimg.com`; the whole block runs only when `entities.urls` is present
and (truthily) nonempty. -/
def apiMediaUrls (entityUrls : Option (List String)) : List String :=
  match entityUrls with
  | none => []
  | some urls =>
    if urls = [] then []
    else urls.filter (fun u =>
      containsSub ".jpg".data u.data || containsSub ".png".data u.data ||
      containsSub ".gif".data u.data || containsSub "pbs.twimg.com".data u.data)

/-- Model of `_transform_tweet`: build the canonical dict from one API
tweet.  Note `media_urls or None`: the empty list becomes `none`. -/
def transform_tweet (t : ApiTweet) (users : List (String × ApiUser))
    (refTweets : List (String × ApiTweet)) : RawRecord :=
  let author : Option ApiUser := t.author_id.bind (fun aid => alistGet aid users)
  let r := refLoop users refTweets t.referenced (false, none, false, none)
  let media := apiMediaUrls t.entity_urls
  { id := t.id,
    author_handle := author.bind (·.username),
    author_name := author.bind (·.name),
    content := t.text,
    timestamp := t.created_at,
    likes := t.like_count,
    retweets := t.retweet_count,
    replies := t.reply_count,
    media_urls := if media = [] then none else some media,
    is_retweet := r.1,
    original_author := r.2.1,
    is_reply := r.2.2.1,
    reply_to_handle := r.2.2.2 }

/-! # Helper lemmas -/

theorem charToNat_ofNat_valid (n : Nat) (h : n.isValidChar) :
    (Char.ofNat n).toNat = n := by
  rw [Char.ofNat, dif_pos h]
  simp [Char.ofNatAux, Char.toNat, UInt32.toNat]

/-- Uppercasing never turns a non-digit into a digit. -/
theorem isDigit_pyUpperChar (c : Char) (h : (pyUpperChar c).isDigit = true) :
    c.isDigit = true := by
  unfold pyUpperChar at h
  split at h
  · next hc =>
    exfalso
    obtain ⟨h1, h2⟩ := hc
    rw [Char.le_def] at h1 h2
    have hv1 : 97 ≤ c.toNat := h1
    have hv2 : c.toNat ≤ 122 := h2
    have hvalid : (c.toNat - 32).isValidChar := Or.inl (by omega)
    rw [Char.isDigit, Bool.and_eq_true] at h
    have h57 : (Char.ofNat (c.toNat - 32)).val ≤ 57 := of_decide_eq_true h.2
    have hn : (Char.ofNat (c.toNat - 32)).toNat = c.toNat - 32 :=
      charToNat_ofNat_valid _ hvalid
    have h57' : (Char.ofNat (c.toNat - 32)).val.toNat ≤ 57 := h57
    rw [show (Char.ofNat (c.toNat - 32)).val.toNat
        = (Char.ofNat (c.toNat - 32)).toNat from rfl, hn] at h57'
    omega
  · rwa [Char.isDigit]

theorem pyStrip_subset (cs : List Char) : pyStrip cs ⊆ cs := by
  intro x hx
  unfold pyStrip at hx
  rw [List.mem_reverse] at hx
  have hx2 := List.dropWhile_subset _ hx
  rw [List.mem_reverse] at hx2
  exact List.dropWhile_subset _ hx2

theorem kmSplit_snd_subset (t : List Char) : (kmSplit t).2 ⊆ t := by
  unfold kmSplit
  split
  · exact List.dropLast_subset t
  · split
    · exact List.dropLast_subset t
    · exact fun _ h => h

theorem pyIsDigit_eq_false_of_all {l : List Char}
    (h : ∀ c ∈ l, c.isDigit = false) : pyIsDigit l = false := by
  cases l with
  | nil => rfl
  | cons c t =>
    simp only [pyIsDigit, List.isEmpty_cons, Bool.not_false, Bool.true_and]
    rw [List.all_eq_false]
    exact ⟨c, List.mem_cons_self c t, by simp [h c (List.mem_cons_self c t)]⟩

/-- Any input without a single decimal digit is rejected by the fallback
parser (it yields `none`, not `some 0`). -/
theorem parseCompactCount_none_of_no_digit (s : String)
    (h : ∀ c ∈ s.data, c.isDigit = false) : parseCompactCount s = none := by
  have hall : ∀ c ∈ pyUpper (pyStrip s.data), c.isDigit = false := by
    intro x hx
    rw [pyUpper, List.mem_map] at hx
    obtain ⟨c₀, hc₀, rfl⟩ := hx
    have hmem : c₀ ∈ s.data := pyStrip_subset _ hc₀
    cases hdig : (pyUpperChar c₀).isDigit
    · rfl
    · exact absurd (isDigit_pyUpperChar _ hdig) (by simp [h _ hmem])
  have hclean : ∀ c ∈ (kmSplit (pyUpper (pyStrip s.data))).2.filter
      (fun c => ¬ (c = ',' ∨ c = '.')), c.isDigit = false :=
    fun c hc => hall c (kmSplit_snd_subset _ (List.mem_of_mem_filter hc))
  simp only [parseCompactCount]
  rw [pyIsDigit_eq_false_of_all hclean]
  simp

/-! # C1 — engagement-count fallback parsing -/

/-- C1, counterexample: the claim says the fallback parser maps `"1.2K"`
to `1200` (K = ×1000 preserving the decimal part); the code strips the
`.` before converting, so it actually yields `12000`. -/
theorem c1_counterexample :
    parseCompactCount "1.2K" = some 12000 ∧
    parseCompactCount "1.2K" ≠ some 1200 := by
  constructor
  · decide
  · decide

/-- C1, amended: the K/M fallback parser deletes `,` and `.` as grouping
separators before applying the multiplier, so `"1.2K"` parses as
12 × 1000 = 12000 (the decimal part is *not* preserved); `"3M"` parses to
3000000, `"42"` to 42, and any input containing no decimal digit yields
`none` — never `0`. -/
theorem c1_engagement_fallback :
    parseCompactCount "1.2K" = some 12000 ∧
    parseCompactCount "3M" = some 3000000 ∧
    parseCompactCount "42" = some 42 ∧
    ∀ s : String, (∀ c ∈ s.data, c.isDigit = false) →
      parseCompactCount s = none :=
  ⟨by decide, by decide, by decide, parseCompactCount_none_of_no_digit⟩

/-- C1, witness: the amended theorem applied at the digit-free input
`"N/A"`. -/
theorem c1_engagement_fallback_witness :
    (∀ c ∈ "N/A".data, c.isDigit = false) ∧ parseCompactCount "N/A" = none :=
  ⟨by decide, c1_engagement_fallback.2.2.2 "N/A" (by decide)⟩

/-! # C7 — repost author reattribution -/

/-- A repost article carrying two distinct non-navigational profile links:
first the amplifier `/alice`, then the original author `/bob`. -/
def c7Article : Article :=
  { statusHrefs := [some "/alice/status/555"],
    timeParentHref := none,
    socialContext := some "Bob reposted",
    userLinks := [⟨some "/alice", some "Alice", "Alice"⟩,
                  ⟨some "/bob", some "Bob", "Bob"⟩],
    tweetText := some "hi",
    timeDatetime := none,
    likeButton := none, retweetButton := none, replyButton := none,
    mediaSrcs := [],
    userNameCount := 1,
    articleText := "Bob reposted Alice hi" }

/-- C7: the claim (and the spec) say the second profile link of a repost
becomes `author_handle` while the first is reattributed to
`repost_of_author`.  The source's `break` sits outside the `if/elif`, so
the loop exits after the first link: on `c7Article` the parsed record
keeps `author_handle = "alice"` and `original_author = none`, and in
general the reattribution branch is dead — starting from a fresh record
(`author_handle = none`), `extract_author_info` can never change
`original_author`. -/
theorem c7_repost_author_handling :
    ((parse_tweet c7Article).map
        (fun r => (r.author_handle, r.original_author, r.is_retweet))
      = some (some "alice", none, true))
    ∧ ∀ (links : List UserLink) (td : RawRecord), td.author_handle = none →
        (extract_author_info links td).original_author = td.original_author := by
  constructor
  · decide
  · intro links
    induction links with
    | nil => intro td _; rfl
    | cons l rest ih =>
      intro td h
      simp only [extract_author_info]
      split
      · exact ih td h
      · split
        · split
          · rfl
          · exact ih td h
        · exact ih td h

/-- C7, witness for the dead-branch half. -/
theorem c7_repost_author_handling_witness :
    (emptyRecord.author_handle = none)
    ∧ (extract_author_info [⟨some "/bob", none, "Bob"⟩]
        emptyRecord).original_author = emptyRecord.original_author :=
  ⟨by decide, c7_repost_author_handling.2 _ emptyRecord (by decide)⟩

/-! # C9 — provider record shape and media_urls -/

/-- An API tweet with no url entities at all. -/
def c9ApiTweetNoMedia : ApiTweet :=
  { id := "123", text := some "hello", created_at := none,
    author_id := none, like_count := some 1, retweet_count := none,
    reply_count := none, referenced := [], entity_urls := none }

/-- An API tweet whose only url entity is `x.jpg` — matched by the
substring test but not a well-formed URL. -/
def c9ApiTweetBadUrl : ApiTweet :=
  { id := "124", text := none, created_at := none,
    author_id := none, like_count := none, retweet_count := none,
    reply_count := none, referenced := [], entity_urls := some ["x.jpg"] }

/-- C9, counterexample: the claim says every record from the live-API
provider has `media_urls` as a (possibly empty) sequence of *validated*
URLs, never null.  The provider stores `media_urls or None`, so a tweet
without media yields `none`; and its substring filter accepts `"x.jpg"`,
which fails `validate_url`. -/
theorem c9_counterexample :
    (transform_tweet c9ApiTweetNoMedia [] []).media_urls = none
    ∧ (transform_tweet c9ApiTweetBadUrl [] []).media_urls = some ["x.jpg"]
    ∧ validate_url "x.jpg" = false := by
  refine ⟨by decide, by decide, by decide⟩

/-- Every URL the scraper's media extractor keeps passes `validate_url`. -/
theorem extract_media_urls_validated :
    ∀ (srcs : List (Option String)) (u : String),
      u ∈ extract_media_urls srcs → validate_url u = true := by
  intro srcs
  induction srcs with
  | nil => intro u hu; cases hu
  | cons o rest ih =>
    intro u hu
    cases o with
    | none => exact ih u hu
    | some src =>
      rw [extract_media_urls] at hu
      split at hu
      · next hcond =>
        rcases List.mem_cons.mp hu with rfl | hmem
        · exact hcond.2
        · exact ih u hmem
      · exact ih u hu

/-- Every URL the API media selection keeps matches the substring test. -/
theorem apiMediaUrls_matched :
    ∀ (eu : Option (List String)) (u : String), u ∈ apiMediaUrls eu →
      (containsSub ".jpg".data u.data || containsSub ".png".data u.data ||
       containsSub ".gif".data u.data ||
       containsSub "pbs.twimg.com".data u.data) = true := by
  intro eu u hu
  cases eu with
  | none => cases hu
  | some urls =>
    rw [apiMediaUrls] at hu
    split at hu
    · cases hu
    · have h2 := List.of_mem_filter hu
      exact h2

/-- The scraper's `_parse_tweet` always emits `media_urls` as `some` of
the validated-URL list. -/
theorem parse_tweet_media_urls (a : Article) (r : RawRecord)
    (h : parse_tweet a = some r) :
    r.media_urls = some (extract_media_urls a.mediaSrcs) := by
  cases hid : extract_tweet_id a with
  | none =>
    simp only [parse_tweet, hid] at h
    exact Option.noConfusion h
  | some tid =>
    simp only [parse_tweet, hid] at h
    by_cases he : tid = ""
    · rw [if_pos he] at h; cases h
    · rw [if_neg he] at h
      have hr := Option.some.inj h
      subst hr
      rfl

/-- C9, amended: both providers build the same 13-field record
(`RawRecord`), but their `media_urls` differ.  The scraper path always
yields `some` (possibly empty) list in which every URL passes
`validate_url`; the API path yields `none` when no url entity matches and
otherwise `some` nonempty list selected by the `.jpg`/`.png`/`.gif`/
`pbs.twimg.com` substring test rather than URL validation. -/
theorem c9_media_urls :
    (∀ (a : Article) (r : RawRecord), parse_tweet a = some r →
      ∃ l, r.media_urls = some l ∧ ∀ u ∈ l, validate_url u = true)
    ∧ ∀ (t : ApiTweet) (users : List (String × ApiUser))
        (refTweets : List (String × ApiTweet)),
        (transform_tweet t users refTweets).media_urls = none
        ∨ ∃ l, (transform_tweet t users refTweets).media_urls = some l
            ∧ l ≠ []
            ∧ ∀ u ∈ l,
              (containsSub ".jpg".data u.data || containsSub ".png".data u.data ||
               containsSub ".gif".data u.data ||
               containsSub "pbs.twimg.com".data u.data) = true := by
  constructor
  · intro a r h
    exact ⟨extract_media_urls a.mediaSrcs, parse_tweet_media_urls a r h,
      fun u hu => extract_media_urls_validated a.mediaSrcs u hu⟩
  · intro t users refTweets
    by_cases hm : apiMediaUrls t.entity_urls = []
    · left
      simp [transform_tweet, hm]
    · right
      refine ⟨apiMediaUrls t.entity_urls, ?_, hm,
        fun u hu => apiMediaUrls_matched t.entity_urls u hu⟩
      simp [transform_tweet, hm]

/-- A concrete article with one valid and one invalid media `src`, and
the record `_parse_tweet` extracts from it. -/
def c9WitnessArticle : Article :=
  { statusHrefs := [some "/carol/status/77"],
    timeParentHref := none, socialContext := none,
    userLinks := [], tweetText := none, timeDatetime := none,
    likeButton := none, retweetButton := none, replyButton := none,
    mediaSrcs := [some "https://pbs.twimg.com/a.jpg", some "bad.jpg"],
    userNameCount := 0, articleText := "" }

def c9WitnessRecord : RawRecord :=
  { emptyRecord with
    id := "77", media_urls := some ["https://pbs.twimg.com/a.jpg"] }

/-- C9, witness: the scraper half of the amended theorem applied to
`c9WitnessArticle`. -/
theorem c9_media_urls_witness :
    (parse_tweet c9WitnessArticle = some c9WitnessRecord)
    ∧ ∃ l, c9WitnessRecord.media_urls = some l
        ∧ ∀ u ∈ l, validate_url u = true :=
  ⟨by decide, c9_media_urls.1 c9WitnessArticle c9WitnessRecord (by decide)⟩

/-! # C10 — scheduler duplicate-briefing suppression -/

/-- C10: a user with a briefing created inside the
`DUPLICATE_BRIEFING_HOURS` window is never enqueued, whatever the current
hour is. -/
theorem c10_duplicate_briefing_guard
    (currentHour now : Nat) (users : List SchedUser)
    (briefings : List SchedBriefing) (u : SchedUser)
    (hu : u ∈ users) (hnodup : (users.map (·.id)).Nodup)
    (hrecent : ∃ b ∈ briefings, b.user_id = u.id
      ∧ now - DUPLICATE_BRIEFING_HOURS ≤ b.created_at) :
    u.id ∉ enqueue_due_users currentHour now users briefings := by
  intro hmem
  rw [enqueue_due_users, List.mem_map] at hmem
  obtain ⟨v, hv, hvid⟩ := hmem
  have hvusers := List.mem_of_mem_filter hv
  have hveq : v = u := List.inj_on_of_nodup_map hnodup hvusers hu hvid
  subst hveq
  have hP := List.of_mem_filter hv
  rw [decide_eq_true_eq] at hP
  apply hP.2.2.2
  rw [hasRecentBriefing, List.any_eq_true]
  obtain ⟨b, hb, hbid, hbt⟩ := hrecent
  exact ⟨b, hb, by rw [decide_eq_true_eq]; exact ⟨hbid, hbt⟩⟩

/-- One active, hour-matching scheduler user who already has a briefing
5 hours old (at `now = 100`, cutoff `80`). -/
def c10User : SchedUser := ⟨1, true, "active", 8⟩

def c10Briefing : SchedBriefing := ⟨1, 95⟩

/-- C10, witness: one active, hour-matching user with a fresh briefing is
not enqueued. -/
theorem c10_duplicate_briefing_guard_witness :
    (c10User ∈ [c10User])
    ∧ (([c10User].map (·.id)).Nodup)
    ∧ (∃ b ∈ [c10Briefing], b.user_id = c10User.id
        ∧ 100 - DUPLICATE_BRIEFING_HOURS ≤ b.created_at)
    ∧ c10User.id ∉ enqueue_due_users 8 100 [c10User] [c10Briefing] :=
  ⟨by decide, by decide, ⟨c10Briefing, by decide, by decide, by decide⟩,
    c10_duplicate_briefing_guard 8 100 [c10User] [c10Briefing] c10User
      (by decide) (by decide)
      ⟨c10Briefing, by decide, by decide, by decide⟩⟩

/-! # C2 — ingestion idempotence -/

/-- Every row the insert loop creates belongs to this tenant, has a
non-falsy id, and was not among the pre-fetched existing ids. -/
theorem insertNewTweets_mem {uid now : Nat} {ex : List String} :
    ∀ {raw : List RawRecord} {row : StoredTweet},
      row ∈ insertNewTweets uid now ex raw →
      row.user_id = uid ∧ row.tweet_id ≠ "" ∧ row.tweet_id ∉ ex
        ∧ row.tweet_id ∈ raw.map (·.id) := by
  intro raw
  induction raw with
  | nil => intro row h; cases h
  | cons t rest ih =>
    intro row h
    rw [insertNewTweets] at h
    split at h
    · next hc =>
      obtain ⟨h1, h2, h3, h4⟩ := ih h
      exact ⟨h1, h2, h3, List.mem_cons_of_mem _ h4⟩
    · next hc =>
      push_neg at hc
      rcases List.mem_cons.mp h with rfl | hmem
      · exact ⟨rfl, hc.1, hc.2, List.mem_cons_self _ _⟩
      · obtain ⟨h1, h2, h3, h4⟩ := ih hmem
        exact ⟨h1, h2, h3, List.mem_cons_of_mem _ h4⟩

/-- The ids of the inserted rows are the batch ids that are neither falsy
nor already present. -/
theorem insertNewTweets_map_id (uid now : Nat) (ex : List String) :
    ∀ raw : List RawRecord,
      (insertNewTweets uid now ex raw).map (·.tweet_id)
        = (raw.map (·.id)).filter (fun i => ¬ (i = "" ∨ i ∈ ex)) := by
  intro raw
  induction raw with
  | nil => rfl
  | cons t rest ih =>
    rw [insertNewTweets]
    split
    · next hc =>
      simp only [List.map_cons, List.filter_cons]
      rw [show (decide ¬(t.id = "" ∨ t.id ∈ ex)) = false by simp [hc],
        if_neg (by simp)]
      exact ih
    · next hc =>
      simp only [List.map_cons, List.filter_cons]
      rw [show (decide ¬(t.id = "" ∨ t.id ∈ ex)) = true by simp [hc],
        if_pos rfl, ih]

/-- A batch record with a non-falsy id not in the pre-fetched set yields a
row in the insert loop's output. -/
theorem insertNewTweets_covers {uid now : Nat} {ex : List String} :
    ∀ {raw : List RawRecord} {t : RawRecord}, t ∈ raw → t.id ≠ "" →
      t.id ∉ ex →
      ∃ row ∈ insertNewTweets uid now ex raw,
        row.tweet_id = t.id ∧ row.user_id = uid := by
  intro raw
  induction raw with
  | nil => intro t h; cases h
  | cons u rest ih =>
    intro t ht hid hex
    rw [insertNewTweets]
    rcases List.mem_cons.mp ht with rfl | hmem
    · rw [if_neg (by simp [hid, hex])]
      exact ⟨⟨t.id, uid, now, t⟩, List.mem_cons_self _ _, rfl, rfl⟩
    · obtain ⟨row, hrow, h1, h2⟩ := ih hmem hid hex
      split
      · exact ⟨row, hrow, h1, h2⟩
      · exact ⟨row, List.mem_cons_of_mem _ hrow, h1, h2⟩

/-- Nothing is inserted when every batch id is falsy or already present. -/
theorem insertNewTweets_nil {uid now : Nat} {ex : List String} :
    ∀ {raw : List RawRecord}, (∀ t ∈ raw, t.id = "" ∨ t.id ∈ ex) →
      insertNewTweets uid now ex raw = [] := by
  intro raw
  induction raw with
  | nil => intro _; rfl
  | cons t rest ih =>
    intro h
    rw [insertNewTweets, if_pos (h t (List.mem_cons_self _ _))]
    exact ih (fun u hu => h u (List.mem_cons_of_mem _ hu))

/-- After one `_store_tweets_batch` call, every non-falsy batch id exists
as a stored row of this tenant. -/
theorem store_tweets_batch_covers (uid now : Nat) (raw : List RawRecord)
    (rows : List StoredTweet) (t : RawRecord) (ht : t ∈ raw)
    (hid : t.id ≠ "") :
    ∃ row ∈ (store_tweets_batch uid now raw rows).2,
      row.tweet_id = t.id ∧ row.user_id = uid := by
  have htid : t.id ∈ (raw.map (·.id)).filter (· ≠ "") := by
    rw [List.mem_filter]
    exact ⟨List.mem_map_of_mem _ ht, by simp [hid]⟩
  rw [store_tweets_batch]
  rw [if_neg (by intro hnil; rw [hnil] at htid; cases htid)]
  by_cases hex : t.id ∈ ((rows.filter (fun r =>
      r.tweet_id ∈ (raw.map (·.id)).filter (· ≠ "")
        ∧ r.user_id = uid)).map (·.tweet_id))
  · rw [List.mem_map] at hex
    obtain ⟨r, hr, hrid⟩ := hex
    exact ⟨r, List.mem_append_left _ (List.mem_of_mem_filter hr), hrid, by
      have := List.of_mem_filter hr
      rw [decide_eq_true_eq] at this
      exact this.2⟩
  · obtain ⟨row, hrow, h1, h2⟩ := insertNewTweets_covers ht hid hex
    exact ⟨row, List.mem_append_right _ hrow, h1, h2⟩

/-- When every non-falsy batch id is already stored for this tenant,
`_store_tweets_batch` inserts nothing and returns 0. -/
theorem store_tweets_batch_all_known (uid now : Nat) (raw : List RawRecord)
    (rows : List StoredTweet)
    (hall : ∀ t ∈ raw, t.id ≠ "" →
      ∃ row ∈ rows, row.tweet_id = t.id ∧ row.user_id = uid) :
    store_tweets_batch uid now raw rows = (0, rows) := by
  simp only [store_tweets_batch]
  by_cases htids : (raw.map (·.id)).filter (· ≠ "") = []
  · rw [if_pos htids]
  · rw [if_neg htids]
    have hnil : insertNewTweets uid now
        ((rows.filter (fun r =>
          r.tweet_id ∈ (raw.map (·.id)).filter (· ≠ "")
            ∧ r.user_id = uid)).map (·.tweet_id)) raw = [] := by
      apply insertNewTweets_nil
      intro t ht
      by_cases hid : t.id = ""
      · exact Or.inl hid
      · right
        obtain ⟨row, hrow, h1, h2⟩ := hall t ht hid
        rw [List.mem_map]
        refine ⟨row, List.mem_filter.mpr ⟨hrow, ?_⟩, h1⟩
        rw [decide_eq_true_eq]
        refine ⟨?_, h2⟩
        rw [h1, List.mem_filter]
        exact ⟨List.mem_map_of_mem _ ht, by simp [hid]⟩
    rw [hnil]
    simp

/-- Ingestion preserves distinctness of the `(external_id, owner_id)`
pairs (this is the rôle of the `uq_tweet_user` unique constraint). -/
theorem store_tweets_batch_nodup (uid now : Nat) (raw : List RawRecord)
    (rows : List StoredTweet)
    (hbatch : ((raw.map (·.id)).filter (· ≠ "")).Nodup)
    (hrows : (rows.map (fun r => (r.tweet_id, r.user_id))).Nodup) :
    ((store_tweets_batch uid now raw rows).2.map
      (fun r => (r.tweet_id, r.user_id))).Nodup := by
  simp only [store_tweets_batch]
  by_cases htids : (raw.map (·.id)).filter (· ≠ "") = []
  · rw [if_pos htids]
    exact hrows
  · rw [if_neg htids]
    rw [List.map_append, List.nodup_append]
    refine ⟨hrows, ?_, ?_⟩
    · have hids : ((insertNewTweets uid now
          ((rows.filter (fun r =>
            r.tweet_id ∈ (raw.map (·.id)).filter (· ≠ "")
              ∧ r.user_id = uid)).map (·.tweet_id)) raw).map
          (·.tweet_id)).Nodup := by
        rw [insertNewTweets_map_id]
        refine (List.monotone_filter_right _ ?_).nodup hbatch
        intro i hi
        rw [decide_eq_true_eq] at hi
        push_neg at hi
        simp only [decide_eq_true_eq]
        exact hi.1
      have hmapeq : (insertNewTweets uid now
          ((rows.filter (fun r =>
            r.tweet_id ∈ (raw.map (·.id)).filter (· ≠ "")
              ∧ r.user_id = uid)).map (·.tweet_id)) raw).map
            (fun r => (r.tweet_id, r.user_id))
          = ((insertNewTweets uid now
          ((rows.filter (fun r =>
            r.tweet_id ∈ (raw.map (·.id)).filter (· ≠ "")
              ∧ r.user_id = uid)).map (·.tweet_id)) raw).map
            (·.tweet_id)).map (fun i => (i, uid)) := by
        rw [List.map_map]
        apply List.map_congr_left
        intro r hr
        have h1 := (insertNewTweets_mem hr).1
        simp [Function.comp, h1]
      rw [hmapeq]
      exact hids.map (fun a b h => congrArg Prod.fst h)
    · intro pr h1 h2
      rw [List.mem_map] at h1 h2
      obtain ⟨rn, hrn, hpn⟩ := h2
      obtain ⟨ro, hro, hpo⟩ := h1
      obtain ⟨hu, hne, hnex, hmem⟩ := insertNewTweets_mem hrn
      have heq : ro.tweet_id = rn.tweet_id ∧ ro.user_id = rn.user_id := by
        have := hpo.trans hpn.symm
        exact ⟨congrArg Prod.fst this, congrArg Prod.snd this⟩
      apply hnex
      rw [List.mem_map]
      refine ⟨ro, List.mem_filter.mpr ⟨hro, ?_⟩, heq.1⟩
      rw [decide_eq_true_eq]
      constructor
      · rw [heq.1, List.mem_filter]
        exact ⟨hmem, by simp [hne]⟩
      · rw [heq.2, hu]

/-- C2: re-ingesting the same batch for the same tenant returns
`new_count = 0` and leaves the stored rows unchanged; and ingestion never
creates a duplicate `(external_id, owner_id)` pair — if the stored pairs
are distinct and the batch's non-falsy ids are distinct, the pairs after
ingestion are still distinct. -/
theorem c2_ingest_idempotent (uid now now2 : Nat) (raw : List RawRecord)
    (rows : List StoredTweet) :
    (store_tweets_batch uid now2 raw
        (store_tweets_batch uid now raw rows).2).1 = 0
    ∧ (store_tweets_batch uid now2 raw
        (store_tweets_batch uid now raw rows).2).2
      = (store_tweets_batch uid now raw rows).2
    ∧ (((raw.map (·.id)).filter (· ≠ "")).Nodup →
        (rows.map (fun r => (r.tweet_id, r.user_id))).Nodup →
        ((store_tweets_batch uid now raw rows).2.map
          (fun r => (r.tweet_id, r.user_id))).Nodup) := by
  have hsecond := store_tweets_batch_all_known uid now2 raw
    (store_tweets_batch uid now raw rows).2
    (fun t ht hid => store_tweets_batch_covers uid now raw rows t ht hid)
  refine ⟨?_, ?_, store_tweets_batch_nodup uid now raw rows⟩
  · rw [hsecond]
  · rw [hsecond]

/-- A two-record batch with distinct, non-falsy ids. -/
def c2Batch : List RawRecord :=
  [{ emptyRecord with id := "7" }, { emptyRecord with id := "8" }]

/-- C2, witness: the idempotence theorem applied to `c2Batch` over an
empty store. -/
theorem c2_ingest_idempotent_witness :
    ((store_tweets_batch 1 20 c2Batch
        (store_tweets_batch 1 10 c2Batch []).2).1 = 0)
    ∧ ((c2Batch.map (·.id)).filter (· ≠ "")).Nodup
    ∧ (((store_tweets_batch 1 10 c2Batch []).2).map
        (fun r => (r.tweet_id, r.user_id))).Nodup :=
  ⟨(c2_ingest_idempotent 1 10 20 c2Batch []).1, by decide,
    (c2_ingest_idempotent 1 10 20 c2Batch []).2.2 (by decide) (by decide)⟩

/-! # C5 — external_id is required -/

/-- Ingestion preserves the invariant that every stored row has a
non-falsy external id. -/
theorem store_tweets_batch_ids_nonempty (uid now : Nat)
    (raw : List RawRecord) (rows : List StoredTweet)
    (hrows : ∀ r ∈ rows, r.tweet_id ≠ "") :
    ∀ r ∈ (store_tweets_batch uid now raw rows).2, r.tweet_id ≠ "" := by
  intro r hr
  simp only [store_tweets_batch] at hr
  by_cases htids : (raw.map (·.id)).filter (· ≠ "") = []
  · rw [if_pos htids] at hr
    exact hrows r hr
  · rw [if_neg htids] at hr
    rcases List.mem_append.mp hr with h1 | h2
    · exact hrows r h1
    · exact (insertNewTweets_mem h2).2.1

/-- C5: when no tweet id can be resolved, `_parse_tweet` returns `none`
(the id is extracted first and the function returns before any other
sub-extraction); and `_store_tweets_batch` never stores a row with a
falsy external id (it preserves the all-ids-non-falsy invariant). -/
theorem c5_external_id_required :
    (∀ a : Article, extract_tweet_id a = none → parse_tweet a = none)
    ∧ ∀ (uid now : Nat) (raw : List RawRecord) (rows : List StoredTweet),
        (∀ r ∈ rows, r.tweet_id ≠ "") →
        ∀ r ∈ (store_tweets_batch uid now raw rows).2, r.tweet_id ≠ "" := by
  constructor
  · intro a h
    simp [parse_tweet, h]
  · exact store_tweets_batch_ids_nonempty

/-- An article whose links carry no `/status/<digits>` permalink. -/
def c5NoIdArticle : Article :=
  { statusHrefs := [some "/x/relatedpage"],
    timeParentHref := none, socialContext := none,
    userLinks := [⟨some "/dave", some "Dave", "Dave"⟩],
    tweetText := some "no permalink", timeDatetime := none,
    likeButton := none, retweetButton := none, replyButton := none,
    mediaSrcs := [], userNameCount := 1, articleText := "no permalink" }

/-- A batch containing one falsy-id record and one real record. -/
def c5Batch : List RawRecord :=
  [{ emptyRecord with id := "" }, { emptyRecord with id := "9" }]

/-- C5, witness: the theorem applied to `c5NoIdArticle` and to `c5Batch`
over an empty store. -/
theorem c5_external_id_required_witness :
    (extract_tweet_id c5NoIdArticle = none)
    ∧ (parse_tweet c5NoIdArticle = none)
    ∧ (∀ r ∈ ([] : List StoredTweet), r.tweet_id ≠ "")
    ∧ (∀ r ∈ (store_tweets_batch 1 5 c5Batch []).2, r.tweet_id ≠ "") :=
  ⟨by decide, c5_external_id_required.1 c5NoIdArticle (by decide),
    by simp, c5_external_id_required.2 1 5 c5Batch [] (by simp)⟩

/-! # C8 — summarizer failure handling -/

def c8Settings : WebSettings := ⟨"api", 24⟩

def c8Raw : List RawRecord := [{ emptyRecord with id := "1" }]

def c8Summarize : List StoredTweet → Except String String :=
  fun _ => .error "boom"

def c8DB : PipelineDB := ⟨[], [], []⟩

/-- C8, counterexample: the claim says the persisted status becomes
`failed: summary_error: <reason>`; the code logs exactly
`summary_error: <reason>` — no run ever carries the `failed: ` prefix. -/
theorem c8_counterexample :
    ((run_user_pipeline 1 100 (some c8Settings) c8Raw c8Summarize
        c8DB).2.runs.map (·.status)) = ["completed", "summary_error: boom"]
    ∧ "failed: summary_error: boom" ∉
        ((run_user_pipeline 1 100 (some c8Settings) c8Raw c8Summarize
          c8DB).2.runs.map (·.status))
    ∧ (run_user_pipeline 1 100 (some c8Settings) c8Raw c8Summarize
        c8DB).1 = none := by
  refine ⟨by decide, by decide, by decide⟩

/-- C8, amended: whenever the summarizer fails with reason `e` (and the
run reached summarization: a non-empty fetch and a non-empty recent-tweet
window), the pipeline returns `none` instead of propagating, creates no
briefing, and the run log gains the `completed` storage run followed by a
run whose persisted status is exactly `summary_error: <e>` (without any
`failed: ` prefix). -/
theorem c8_summary_error_handling (uid now : Nat) (st : WebSettings)
    (raw : List RawRecord)
    (summarize : List StoredTweet → Except String String)
    (db : PipelineDB) (e : String)
    (hraw : raw ≠ [])
    (hrecent : ((store_tweets_batch uid now raw db.tweets).2.filter
      (fun t => t.user_id = uid ∧ now - st.summary_hours ≤ t.scraped_at)) ≠ [])
    (hsum : summarize ((store_tweets_batch uid now raw db.tweets).2.filter
      (fun t => t.user_id = uid ∧ now - st.summary_hours ≤ t.scraped_at))
      = .error e) :
    (run_user_pipeline uid now (some st) raw summarize db).1 = none
    ∧ (run_user_pipeline uid now (some st) raw summarize db).2.briefings
      = db.briefings
    ∧ (run_user_pipeline uid now (some st) raw summarize db).2.runs
      = db.runs
        ++ [⟨uid, raw.length, (store_tweets_batch uid now raw db.tweets).1,
              st.feed_source, "completed"⟩,
            ⟨uid, raw.length, (store_tweets_batch uid now raw db.tweets).1,
              st.feed_source, "summary_error: " ++ e⟩] := by
  simp only [run_user_pipeline, log_scrape_run]
  rw [if_neg (by simp only [List.isEmpty_eq_true]; exact hraw)]
  rw [if_neg (by simp only [List.isEmpty_eq_true]; exact hrecent)]
  rw [hsum]
  refine ⟨rfl, rfl, ?_⟩
  simp

/-- C8, witness: the amended theorem applied to the concrete failing
environment. -/
theorem c8_summary_error_handling_witness :
    (c8Raw ≠ [])
    ∧ (((store_tweets_batch 1 100 c8Raw c8DB.tweets).2.filter
        (fun t => t.user_id = 1 ∧ 100 - c8Settings.summary_hours ≤ t.scraped_at)) ≠ [])
    ∧ ((run_user_pipeline 1 100 (some c8Settings) c8Raw c8Summarize
        c8DB).1 = none)
    ∧ ((run_user_pipeline 1 100 (some c8Settings) c8Raw c8Summarize
        c8DB).2.briefings = c8DB.briefings) :=
  ⟨by decide, by decide,
    (c8_summary_error_handling 1 100 c8Settings c8Raw c8Summarize c8DB
      "boom" (by decide) (by decide) rfl).1,
    (c8_summary_error_handling 1 100 c8Settings c8Raw c8Summarize c8DB
      "boom" (by decide) (by decide) rfl).2.1⟩

/-! # C6 — retention trimming -/

/-- Order statistic of a descending sorted list with distinct elements:
the number of elements strictly below the `k`-th entry is everything
after position `k`. -/
theorem countP_lt_of_sorted_ge :
    ∀ (s : List Nat), s.Pairwise (fun a b : Nat => a ≥ b) → s.Nodup →
      ∀ (k cutoff : Nat), s.get? k = some cutoff →
        s.countP (fun t => t < cutoff) = s.length - (k + 1) := by
  intro s
  induction s with
  | nil => intro _ _ k cutoff h; cases h
  | cons a rest ih =>
    intro hp hnd k cutoff hget
    rw [List.pairwise_cons] at hp
    rw [List.nodup_cons] at hnd
    cases k with
    | zero =>
      rw [List.get?_cons_zero] at hget
      obtain rfl : a = cutoff := Option.some.inj hget
      have hall : ∀ t ∈ rest, t < a := by
        intro t ht
        have h1 : a ≥ t := hp.1 t ht
        have h2 : t ≠ a := fun he => hnd.1 (he ▸ ht)
        omega
      have hrest : rest.countP (fun t => decide (t < a)) = rest.length := by
        rw [List.countP_eq_length]
        intro t ht
        simp only [decide_eq_true_eq]
        exact hall t ht
      have hnotlt : ¬ (a < a) := Nat.lt_irrefl a
      rw [List.countP_cons, hrest]
      simp only [decide_eq_true_eq]
      rw [if_neg hnotlt]
      simp only [List.length_cons]
      omega
    | succ k =>
      rw [List.get?_cons_succ] at hget
      have hcm : cutoff ∈ rest := List.get?_mem hget
      have hac : a ≥ cutoff := hp.1 cutoff hcm
      have hklen : k < rest.length := by
        by_contra hk
        rw [List.get?_eq_none.mpr (by omega)] at hget
        cases hget
      have hnotlt : ¬ (a < cutoff) := by omega
      rw [List.countP_cons, ih hp.2 hnd.2 k cutoff hget]
      simp only [decide_eq_true_eq]
      rw [if_neg hnotlt]
      simp only [List.length_cons]
      omega

/-- Complementary-filter length. -/
theorem length_filter_not_lt (rows : List CliTweet) (cutoff : Nat) :
    (rows.filter (fun r => ¬ r.scraped_at < cutoff)).length
      = rows.length - (rows.filter (fun r => r.scraped_at < cutoff)).length := by
  induction rows with
  | nil => rfl
  | cons r rest ih =>
    have hle := List.length_filter_le
      (fun r : CliTweet => decide (r.scraped_at < cutoff)) rest
    by_cases h : r.scraped_at < cutoff
    · rw [List.filter_cons, List.filter_cons,
        if_neg (by simpa using h), if_pos (by simpa using h)]
      simp only [List.length_cons]
      omega
    · rw [List.filter_cons, List.filter_cons,
        if_pos (by simpa using h), if_neg (by simpa using h)]
      simp only [List.length_cons]
      omega

/-- Reduction of `cleanup_old_tweets` in the non-trivial case. -/
theorem cleanup_old_tweets_eq (keep : Nat) (rows : List CliTweet)
    (cutoff : Nat) (hlen : keep < rows.length)
    (hget : (List.insertionSort (fun a b : Nat => a ≥ b)
      (rows.map (·.scraped_at))).get? (keep - 1) = some cutoff) :
    cleanup_old_tweets keep rows
      = ((rows.filter (fun r => r.scraped_at < cutoff)).length,
         rows.filter (fun r => ¬ r.scraped_at < cutoff)) := by
  simp only [cleanup_old_tweets]
  rw [if_neg (by omega), hget]

/-- C6: trimming is a no-op when the stored count is within `keep_count`;
survivors are upward-closed in storage time (anything at least as recent
as a survivor also survives); and with distinct storage times and more
than `keep_count` rows, exactly `total - keep_count` rows are deleted
(the returned count) and exactly `keep_count` remain. -/
theorem c6_retention_trim (keep : Nat) (rows : List CliTweet)
    (hkeep : 0 < keep) :
    (rows.length ≤ keep → cleanup_old_tweets keep rows = (0, rows))
    ∧ (∀ kept ∈ (cleanup_old_tweets keep rows).2, ∀ other ∈ rows,
        kept.scraped_at ≤ other.scraped_at →
        other ∈ (cleanup_old_tweets keep rows).2)
    ∧ ((rows.map (·.scraped_at)).Nodup → keep < rows.length →
        (cleanup_old_tweets keep rows).1 = rows.length - keep
        ∧ (cleanup_old_tweets keep rows).2.length = keep) := by
  have hnoop : rows.length ≤ keep → cleanup_old_tweets keep rows = (0, rows) := by
    intro h
    simp only [cleanup_old_tweets]
    rw [if_pos h]
  refine ⟨hnoop, ?_, ?_⟩
  · intro kept hkept other hother hle
    by_cases hlen : rows.length ≤ keep
    · rw [hnoop hlen] at hkept ⊢
      exact hother
    · push_neg at hlen
      have hkl : keep - 1 < (List.insertionSort (fun a b : Nat => a ≥ b)
          (rows.map (·.scraped_at))).length := by
        rw [List.length_insertionSort, List.length_map]
        omega
      obtain ⟨cutoff, hget⟩ : ∃ c, (List.insertionSort (fun a b : Nat => a ≥ b)
          (rows.map (·.scraped_at))).get? (keep - 1) = some c :=
        ⟨_, List.get?_eq_get hkl⟩
      rw [cleanup_old_tweets_eq keep rows cutoff hlen hget] at hkept ⊢
      have hk1 := List.of_mem_filter hkept
      rw [decide_eq_true_eq] at hk1
      rw [List.mem_filter]
      refine ⟨hother, ?_⟩
      rw [decide_eq_true_eq]
      omega
  · intro hnd hlen
    have hkl : keep - 1 < (List.insertionSort (fun a b : Nat => a ≥ b)
        (rows.map (·.scraped_at))).length := by
      rw [List.length_insertionSort, List.length_map]
      omega
    obtain ⟨cutoff, hget⟩ : ∃ c, (List.insertionSort (fun a b : Nat => a ≥ b)
        (rows.map (·.scraped_at))).get? (keep - 1) = some c :=
      ⟨_, List.get?_eq_get hkl⟩
    have hperm : List.Perm (List.insertionSort (fun a b : Nat => a ≥ b)
        (rows.map (·.scraped_at))) (rows.map (·.scraped_at)) :=
      List.perm_insertionSort _ _
    have hsor := List.sorted_insertionSort (fun a b : Nat => a ≥ b)
      (rows.map (·.scraped_at))
    have hsnd : (List.insertionSort (fun a b : Nat => a ≥ b)
        (rows.map (·.scraped_at))).Nodup := hperm.nodup_iff.mpr hnd
    have hcount := countP_lt_of_sorted_ge _ hsor hsnd (keep - 1) cutoff hget
    rw [List.length_insertionSort, List.length_map] at hcount
    have hcount2 : (rows.map (·.scraped_at)).countP (fun t => t < cutoff)
        = rows.length - keep := by
      rw [← hperm.countP_eq, hcount]
      omega
    have hdel : (rows.filter (fun r => r.scraped_at < cutoff)).length
        = rows.length - keep := by
      rw [← List.countP_eq_length_filter]
      rw [List.countP_map] at hcount2
      rw [← hcount2]
      rfl
    rw [cleanup_old_tweets_eq keep rows cutoff hlen hget]
    refine ⟨hdel, ?_⟩
    rw [length_filter_not_lt, hdel]
    omega

/-- 150 rows stored at distinct instants. -/
def c6Rows : List CliTweet := (List.range 150).map (fun i => ⟨i⟩)

set_option maxRecDepth 8000 in
/-- C6, witness: the theorem's counting half applied at the spec's own
instance — 150 stored rows, `keep_count = 100`: 50 deleted, 100 remain. -/
theorem c6_retention_trim_witness :
    ((0 : Nat) < 100)
    ∧ (c6Rows.map (·.scraped_at)).Nodup
    ∧ (100 < c6Rows.length)
    ∧ (cleanup_old_tweets 100 c6Rows).1 = c6Rows.length - 100
    ∧ (cleanup_old_tweets 100 c6Rows).2.length = 100
    ∧ c6Rows.length = 150 :=
  ⟨by decide, by decide, by decide,
    ((c6_retention_trim 100 c6Rows (by decide)).2.2 (by decide) (by decide)).1,
    ((c6_retention_trim 100 c6Rows (by decide)).2.2 (by decide) (by decide)).2,
    by decide⟩

/-! # C4 — bounded acquisition -/

/-- The batch a pass result carries (collected tweets in both cases). -/
def passTweets : PassResult → List RawRecord
  | .stopped ts => ts
  | .continued s => s.tweets

/-- One extraction pass never pushes the collected batch beyond the cap:
items are appended only while `len(tweets) < max_tweets`. -/
theorem processArticles_le {α : Type} (maxT : Nat) (sk : Bool)
    (kc : Option (String → Bool)) (parse : α → Option RawRecord) :
    ∀ (arts : List α) (s : ScrapeState), s.tweets.length ≤ maxT →
      (passTweets (processArticles maxT sk kc parse arts s)).length ≤ maxT := by
  intro arts
  induction arts with
  | nil => intro s hs; exact hs
  | cons art rest ih =>
    intro s hs
    rw [processArticles]
    split
    · exact hs
    · next hbreak =>
      push_neg at hbreak
      split
      · exact ih s hs
      · next t hparse =>
        split
        · split
          · dsimp only
            split
            · exact hs
            · exact ih _ hs
          · refine ih _ ?_
            show (s.tweets ++ [t]).length ≤ maxT
            rw [List.length_append]
            simp only [List.length_cons, List.length_nil]
            omega
        · exact ih s hs

/-- The scroll counter returned by the loop never exceeds the scroll
budget. -/
theorem scrapeAux_scrolls_le {α : Type} (feed : Nat → List α)
    (parse : α → Option RawRecord) (maxT maxScrolls : Nat) (sk : Bool)
    (kc : Option (String → Bool)) :
    ∀ (fuel scrollCount : Nat) (s : ScrapeState),
      scrollCount ≤ maxScrolls →
      (scrapeAux feed parse maxT maxScrolls sk kc fuel scrollCount s).2
        ≤ maxScrolls := by
  intro fuel
  induction fuel with
  | zero => intro sc s h; exact h
  | succ fuel ih =>
    intro sc s h
    rw [scrapeAux]
    split
    · next hguard =>
      split
      · exact h
      · exact ih (sc + 1) _ (by omega)
    · exact h

/-- The collected batch never exceeds the cap. -/
theorem scrapeAux_len_le {α : Type} (feed : Nat → List α)
    (parse : α → Option RawRecord) (maxT maxScrolls : Nat) (sk : Bool)
    (kc : Option (String → Bool)) :
    ∀ (fuel scrollCount : Nat) (s : ScrapeState),
      s.tweets.length ≤ maxT →
      (scrapeAux feed parse maxT maxScrolls sk kc fuel scrollCount s).1.length
        ≤ maxT := by
  intro fuel
  induction fuel with
  | zero => intro sc s h; exact h
  | succ fuel ih =>
    intro sc s h
    rw [scrapeAux]
    split
    · next hguard =>
      cases hproc : processArticles maxT sk kc parse (feed sc) s with
      | stopped ts =>
        have := processArticles_le maxT sk kc parse (feed sc) s h
        rw [hproc] at this
        exact this
      | continued s' =>
        have := processArticles_le maxT sk kc parse (feed sc) s h
        rw [hproc] at this
        exact ih (sc + 1) s' this
    · exact h

/-- The id of the `k`-th item of the canonical unbounded feed: `k + 1`
copies of `'a'`, so ids are nonempty and pairwise distinct. -/
def unbId (k : Nat) : String := String.mk (List.replicate (k + 1) 'a')

def unbRec (k : Nat) : RawRecord := { emptyRecord with id := unbId k }

/-- A feed that renders one fresh, parseable item per scroll pass. -/
def unboundedFeed (k : Nat) : List (Option RawRecord) := [some (unbRec k)]

theorem unbId_ne_empty (k : Nat) : unbId k ≠ "" := by
  rw [unbId]
  intro h
  have := congrArg String.data h
  simp at this

theorem unbId_inj {i j : Nat} (h : unbId i = unbId j) : i = j := by
  rw [unbId, unbId] at h
  have := congrArg String.data h
  simp only [String.data] at this
  have hlen := congrArg List.length this
  simp only [List.length_replicate] at hlen
  omega

theorem unbId_not_mem (k : Nat) :
    unbId k ∉ ((List.range k).map unbId).reverse := by
  intro h
  rw [List.mem_reverse, List.mem_map] at h
  obtain ⟨j, hj, hje⟩ := h
  rw [List.mem_range] at hj
  have := unbId_inj hje
  omega

/-- Processing a single fresh, non-known, parseable article appends it and
resets the consecutive-known counter. -/
theorem processArticles_singleton_new {α : Type} (maxT : Nat) (sk : Bool)
    (kc : Option (String → Bool)) (parse : α → Option RawRecord)
    (art : α) (t : RawRecord) (tw : List RawRecord) (sn : List String)
    (ck : Nat) (hb : tw.length < maxT) (hp : parse art = some t)
    (hid : t.id ≠ "") (hmem : t.id ∉ sn)
    (hk : checkerKnown sk kc t.id = false) :
    processArticles maxT sk kc parse [art] ⟨tw, sn, ck⟩
      = .continued ⟨tw ++ [t], t.id :: sn, 0⟩ := by
  rw [processArticles]
  rw [if_neg (show ¬ (⟨tw, sn, ck⟩ : ScrapeState).tweets.length ≥ maxT by
    simp only []
    omega)]
  simp only [hp]
  rw [if_pos ⟨hid, hmem⟩]
  rw [hk]
  simp only [Bool.false_eq_true, if_false]
  rfl

/-- On the canonical unbounded feed the loop collects exactly one fresh
record per pass, reaching exactly `max_tweets` records. -/
theorem scrapeAux_unbounded (maxT : Nat) :
    ∀ (fuel scrollCount : Nat) (s : ScrapeState),
      s.tweets.length = scrollCount →
      s.seen = ((List.range scrollCount).map unbId).reverse →
      scrollCount ≤ maxT → maxT ≤ scrollCount + fuel →
      (scrapeAux unboundedFeed (fun x => x) maxT (maxT * SCROLL_MULTIPLIER)
        false none fuel scrollCount s).1.length = maxT := by
  intro fuel
  induction fuel with
  | zero =>
    intro sc s hlen hseen hle hge
    rw [scrapeAux]
    show s.tweets.length = maxT
    omega
  | succ fuel ih =>
    intro sc s hlen hseen hle hge
    by_cases hceq : sc = maxT
    · rw [scrapeAux]
      rw [if_neg (by omega)]
      show s.tweets.length = maxT
      omega
    · have hlt : sc < maxT := by omega
      have hms : sc < maxT * SCROLL_MULTIPLIER := by
        simp only [SCROLL_MULTIPLIER]
        omega
      rw [scrapeAux]
      rw [if_pos ⟨by omega, hms⟩]
      obtain ⟨tw, sn, ck⟩ := s
      simp only [] at hlen hseen
      subst hseen
      have hproc := processArticles_singleton_new maxT false none
        (fun x => x) (some (unbRec sc)) (unbRec sc) tw
        (((List.range sc).map unbId).reverse) ck (by omega) rfl
        (unbId_ne_empty sc) (unbId_not_mem sc) rfl
      rw [show unboundedFeed sc = [some (unbRec sc)] from rfl, hproc]
      refine ih (sc + 1) _ ?_ ?_ (by omega) (by omega)
      · simp only [List.length_append, List.length_cons, List.length_nil]
        omega
      · simp only []
        rw [List.range_succ, List.map_append, List.reverse_append]
        rfl

/-- C4: for any positive cap, acquisition returns at most `max_tweets`
records and performs at most `max_tweets × SCROLL_MULTIPLIER` scroll
steps (the loop always terminates with these bounds); and on a feed that
yields a fresh item on every pass it returns exactly `max_tweets`
records. -/
theorem c4_bounded_acquisition {α : Type} (feed : Nat → List α)
    (parse : α → Option RawRecord) (maxTweets : Nat) (stopOnKnown : Bool)
    (kc : Option (String → Bool)) (hpos : 0 < maxTweets) :
    (scrape_feed feed parse maxTweets stopOnKnown kc).1.length ≤ maxTweets
    ∧ (scrape_feed feed parse maxTweets stopOnKnown kc).2
        ≤ maxTweets * SCROLL_MULTIPLIER
    ∧ (scrape_feed unboundedFeed (fun x => x) maxTweets false none).1.length
        = maxTweets := by
  refine ⟨?_, ?_, ?_⟩
  · exact scrapeAux_len_le feed parse maxTweets _ stopOnKnown kc _ 0 _
      (by simp)
  · exact scrapeAux_scrolls_le feed parse maxTweets _ stopOnKnown kc _ 0 _
      (by omega)
  · refine scrapeAux_unbounded maxTweets _ 0 ⟨[], [], 0⟩ rfl rfl
      (by omega) ?_
    simp only [SCROLL_MULTIPLIER]
    omega

/-- C4, witness: the theorem applied at `max_tweets = 3` on the unbounded
feed. -/
theorem c4_bounded_acquisition_witness :
    ((0 : Nat) < 3)
    ∧ (scrape_feed unboundedFeed (fun x => x) 3 false none).1.length ≤ 3
    ∧ (scrape_feed unboundedFeed (fun x => x) 3 false none).2
        ≤ 3 * SCROLL_MULTIPLIER
    ∧ (scrape_feed unboundedFeed (fun x => x) 3 false none).1.length = 3 :=
  ⟨by decide,
    (c4_bounded_acquisition unboundedFeed (fun x => x) 3 false none
      (by decide)).1,
    (c4_bounded_acquisition unboundedFeed (fun x => x) 3 false none
      (by decide)).2.1,
    (c4_bounded_acquisition unboundedFeed (fun x => x) 3 false none
      (by decide)).2.2⟩

/-! # C3 — consecutive-known early stop -/

/-- Processing one fresh *new* article appends it, resets the counter. -/
theorem processArticles_new_step {α : Type} (maxT : Nat) (sk : Bool)
    (kc : Option (String → Bool)) (parse : α → Option RawRecord)
    (art : α) (rest : List α) (t : RawRecord) (tw : List RawRecord)
    (sn : List String) (ck : Nat) (hb : tw.length < maxT)
    (hp : parse art = some t) (hid : t.id ≠ "") (hmem : t.id ∉ sn)
    (hk : checkerKnown sk kc t.id = false) :
    processArticles maxT sk kc parse (art :: rest) ⟨tw, sn, ck⟩
      = processArticles maxT sk kc parse rest ⟨tw ++ [t], t.id :: sn, 0⟩ := by
  rw [processArticles]
  rw [if_neg (show ¬ (⟨tw, sn, ck⟩ : ScrapeState).tweets.length ≥ maxT by
    show ¬ tw.length ≥ maxT
    omega)]
  simp only [hp]
  rw [if_pos ⟨hid, hmem⟩, hk]
  simp only [Bool.false_eq_true, if_false]

/-- Processing one fresh *known* article below the threshold increments
the counter and appends nothing. -/
theorem processArticles_known_step {α : Type} (maxT : Nat) (sk : Bool)
    (kc : Option (String → Bool)) (parse : α → Option RawRecord)
    (art : α) (rest : List α) (t : RawRecord) (tw : List RawRecord)
    (sn : List String) (ck : Nat) (hb : tw.length < maxT)
    (hp : parse art = some t) (hid : t.id ≠ "") (hmem : t.id ∉ sn)
    (hk : checkerKnown sk kc t.id = true)
    (hc : ck + 1 < MAX_CONSECUTIVE_KNOWN) :
    processArticles maxT sk kc parse (art :: rest) ⟨tw, sn, ck⟩
      = processArticles maxT sk kc parse rest ⟨tw, t.id :: sn, ck + 1⟩ := by
  rw [processArticles]
  rw [if_neg (show ¬ (⟨tw, sn, ck⟩ : ScrapeState).tweets.length ≥ maxT by
    show ¬ tw.length ≥ maxT
    omega)]
  simp only [hp]
  rw [if_pos ⟨hid, hmem⟩, hk]
  simp only [if_true]
  rw [if_neg (show ¬ ck + 1 ≥ MAX_CONSECUTIVE_KNOWN by omega)]

/-- Processing one fresh *known* article that reaches the threshold stops
immediately, returning the batch collected so far — anything after it in
the rendered list is never examined. -/
theorem processArticles_known_stop {α : Type} (maxT : Nat) (sk : Bool)
    (kc : Option (String → Bool)) (parse : α → Option RawRecord)
    (art : α) (rest : List α) (t : RawRecord) (tw : List RawRecord)
    (sn : List String) (ck : Nat) (hb : tw.length < maxT)
    (hp : parse art = some t) (hid : t.id ≠ "") (hmem : t.id ∉ sn)
    (hk : checkerKnown sk kc t.id = true)
    (hc : ck + 1 ≥ MAX_CONSECUTIVE_KNOWN) :
    processArticles maxT sk kc parse (art :: rest) ⟨tw, sn, ck⟩
      = .stopped tw := by
  rw [processArticles]
  rw [if_neg (show ¬ (⟨tw, sn, ck⟩ : ScrapeState).tweets.length ≥ maxT by
    show ¬ tw.length ≥ maxT
    omega)]
  simp only [hp]
  rw [if_pos ⟨hid, hmem⟩, hk]
  simp only [if_true]
  rw [if_pos hc]

/-- A run of fresh non-known records is appended wholesale, leaving the
consecutive-known counter at zero. -/
theorem processArticles_all_new (maxT : Nat) (known : String → Bool) :
    ∀ (pre rest tw : List RawRecord) (sn : List String),
      (∀ r ∈ pre, r.id ≠ "" ∧ known r.id = false) →
      (∀ r ∈ pre, r.id ∉ sn) →
      ((pre.map (·.id)).Nodup) →
      tw.length + pre.length ≤ maxT →
      processArticles maxT true (some known) some (pre ++ rest) ⟨tw, sn, 0⟩
        = processArticles maxT true (some known) some rest
            ⟨tw ++ pre, (pre.map (·.id)).reverse ++ sn, 0⟩ := by
  intro pre
  induction pre with
  | nil =>
    intro rest tw sn _ _ _ _
    simp
  | cons r pre' ih =>
    intro rest tw sn hki hdisj hnd hlen
    simp only [List.length_cons] at hlen
    have hr := hki r (List.mem_cons_self _ _)
    rw [List.cons_append]
    rw [processArticles_new_step maxT true (some known) some r (pre' ++ rest)
      r tw sn 0 (by omega) rfl hr.1 (hdisj r (List.mem_cons_self _ _))
      (by simp [checkerKnown, hr.2])]
    rw [List.map_cons, List.nodup_cons] at hnd
    rw [ih rest (tw ++ [r]) (r.id :: sn)
      (fun q hq => hki q (List.mem_cons_of_mem _ hq))
      (fun q hq => by
        rw [List.mem_cons]
        rintro (h1 | h2)
        · exact hnd.1 (h1 ▸ List.mem_map_of_mem _ hq)
        · exact hdisj q (List.mem_cons_of_mem _ hq) h2)
      hnd.2
      (by
        rw [List.length_append]
        simp only [List.length_cons, List.length_nil]
        omega)]
    congr 1
    simp [List.append_assoc]

/-- If a pass over fresh, distinct, parseable items stops early, the item
stream contains an uninterrupted run of known items: either a full run of
`MAX_CONSECUTIVE_KNOWN`, or an initial run that together with the
incoming counter reaches the threshold. -/
theorem processArticles_stopped_run (maxT : Nat) (known : String → Bool) :
    ∀ (arts tw : List RawRecord) (sn : List String) (ck : Nat)
      (ts : List RawRecord),
      (∀ r ∈ arts, r.id ≠ "") →
      ((arts.map (·.id)).Nodup) →
      (∀ r ∈ arts, r.id ∉ sn) →
      processArticles maxT true (some known) some arts ⟨tw, sn, ck⟩
        = .stopped ts →
      ∃ l1 l2 l3, arts = l1 ++ l2 ++ l3
        ∧ (∀ r ∈ l2, known r.id = true)
        ∧ (l2.length = MAX_CONSECUTIVE_KNOWN
            ∨ (l1 = [] ∧ MAX_CONSECUTIVE_KNOWN ≤ l2.length + ck)) := by
  intro arts
  induction arts with
  | nil =>
    intro tw sn ck ts _ _ _ h
    rw [processArticles] at h
    exact PassResult.noConfusion h
  | cons r rest ih =>
    intro tw sn ck ts hfr hnd hdisj h
    rw [List.map_cons, List.nodup_cons] at hnd
    have hrid := hfr r (List.mem_cons_self _ _)
    have hrmem := hdisj r (List.mem_cons_self _ _)
    have hfr' : ∀ q ∈ rest, q.id ≠ "" :=
      fun q hq => hfr q (List.mem_cons_of_mem _ hq)
    have hdisj' : ∀ q ∈ rest, q.id ∉ r.id :: sn := by
      intro q hq
      rw [List.mem_cons]
      rintro (h1 | h2)
      · exact hnd.1 (h1 ▸ List.mem_map_of_mem _ hq)
      · exact hdisj q (List.mem_cons_of_mem _ hq) h2
    by_cases hb : tw.length ≥ maxT
    · rw [processArticles,
        if_pos (show (⟨tw, sn, ck⟩ : ScrapeState).tweets.length ≥ maxT
          from hb)] at h
      exact PassResult.noConfusion h
    · cases hk : known r.id with
      | true =>
        by_cases hth : ck + 1 ≥ MAX_CONSECUTIVE_KNOWN
        · refine ⟨[], [r], rest, by simp, ?_, Or.inr ⟨rfl, ?_⟩⟩
          · intro q hq
            rw [List.mem_singleton] at hq
            subst hq
            exact hk
          · simp only [List.length_cons, List.length_nil]
            omega
        · rw [processArticles_known_step maxT true (some known) some r rest
            r tw sn ck (by omega) rfl hrid hrmem
            (by simp [checkerKnown, hk]) (by omega)] at h
          obtain ⟨m1, m2, m3, hdec, hkn, hcase⟩ :=
            ih tw (r.id :: sn) (ck + 1) ts hfr' hnd.2 hdisj' h
          rcases hcase with hlen3 | ⟨hm1, hge⟩
          · exact ⟨r :: m1, m2, m3, by rw [hdec]; rfl, hkn, Or.inl hlen3⟩
          · subst hm1
            refine ⟨[], r :: m2, m3, by rw [hdec]; rfl, ?_, Or.inr ⟨rfl, ?_⟩⟩
            · intro q hq
              rcases List.mem_cons.mp hq with rfl | hq2
              · exact hk
              · exact hkn q hq2
            · simp only [List.length_cons]
              omega
      | false =>
        rw [processArticles_new_step maxT true (some known) some r rest r
          tw sn ck (by omega) rfl hrid hrmem
          (by simp [checkerKnown, hk])] at h
        obtain ⟨m1, m2, m3, hdec, hkn, hcase⟩ :=
          ih (tw ++ [r]) (r.id :: sn) 0 ts hfr' hnd.2 hdisj' h
        rcases hcase with hlen3 | ⟨hm1, hge⟩
        · exact ⟨r :: m1, m2, m3, by rw [hdec]; rfl, hkn, Or.inl hlen3⟩
        · subst hm1
          refine ⟨[r], m2.take MAX_CONSECUTIVE_KNOWN,
            m2.drop MAX_CONSECUTIVE_KNOWN ++ m3, ?_, ?_, Or.inl ?_⟩
          · rw [hdec]
            simp only [List.nil_append, List.cons_append]
            rw [← List.append_assoc, List.take_append_drop]
          · intro q hq
            exact hkn q (List.take_subset _ _ hq)
          · rw [List.length_take]
            omega

/-- C3: (i) with `stop_on_known` enabled and an oracle supplied, a feed
pass consisting of fresh new records followed by three consecutive
oracle-known items stops at the third known item and returns exactly the
records collected before the run — whatever comes after the run is never
processed (the result does not depend on `post`); (ii) conversely, an
early stop can only happen when the stream contains an uninterrupted run
of `MAX_CONSECUTIVE_KNOWN` known items — a known item surrounded by new
items never triggers it. -/
theorem c3_consecutive_known_stop :
    (∀ (pre post : List RawRecord) (a b c : RawRecord)
        (known : String → Bool) (maxT : Nat),
        (∀ r ∈ pre, r.id ≠ "" ∧ known r.id = false) →
        a.id ≠ "" → b.id ≠ "" → c.id ≠ "" →
        known a.id = true → known b.id = true → known c.id = true →
        (((pre ++ [a, b, c]).map (·.id)).Nodup) →
        pre.length < maxT →
        scrape_feed (fun k => if k = 0 then pre ++ a :: b :: c :: post else [])
          some maxT true (some known) = (pre, 0))
    ∧ (∀ (arts ts : List RawRecord) (known : String → Bool) (maxT : Nat),
        (∀ r ∈ arts, r.id ≠ "") →
        ((arts.map (·.id)).Nodup) →
        processArticles maxT true (some known) some arts ⟨[], [], 0⟩
          = .stopped ts →
        ∃ l1 l2 l3, arts = l1 ++ l2 ++ l3
          ∧ l2.length = MAX_CONSECUTIVE_KNOWN
          ∧ ∀ r ∈ l2, known r.id = true) := by
  constructor
  · intro pre post a b c known maxT hpre ha hb hc hka hkb hkc hnodup hmax
    rw [List.map_append] at hnodup
    simp only [List.map_cons, List.map_nil] at hnodup
    rw [List.nodup_append] at hnodup
    obtain ⟨hpreN, habcN, hdisj2⟩ := hnodup
    have h1 := List.nodup_cons.mp habcN
    have h2 := List.nodup_cons.mp h1.2
    have hba : b.id ≠ a.id := by
      intro he
      apply h1.1
      rw [← he]
      exact List.mem_cons_self _ _
    have hca : c.id ≠ a.id := by
      intro he
      apply h1.1
      rw [← he]
      exact List.mem_cons_of_mem _ (List.mem_cons_self _ _)
    have hcb : c.id ≠ b.id := by
      intro he
      apply h2.1
      rw [← he]
      exact List.mem_cons_self _ _
    have hanp : a.id ∉ pre.map (·.id) :=
      fun hmem => hdisj2 hmem (List.mem_cons_self _ _)
    have hbnp : b.id ∉ pre.map (·.id) :=
      fun hmem => hdisj2 hmem
        (List.mem_cons_of_mem _ (List.mem_cons_self _ _))
    have hcnp : c.id ∉ pre.map (·.id) :=
      fun hmem => hdisj2 hmem (List.mem_cons_of_mem _
        (List.mem_cons_of_mem _ (List.mem_cons_self _ _)))
    show scrapeAux _ some maxT (maxT * SCROLL_MULTIPLIER) true (some known)
      (maxT * SCROLL_MULTIPLIER) 0 ⟨[], [], 0⟩ = (pre, 0)
    obtain ⟨m, hm⟩ : ∃ m, maxT * SCROLL_MULTIPLIER = m + 1 := by
      refine ⟨maxT * SCROLL_MULTIPLIER - 1, ?_⟩
      simp only [SCROLL_MULTIPLIER]
      omega
    rw [hm, scrapeAux]
    rw [if_pos ⟨show (⟨[], [], 0⟩ : ScrapeState).tweets.length < maxT by
        show ([] : List RawRecord).length < maxT
        simp only [List.length_nil]
        omega,
      Nat.succ_pos m⟩]
    rw [if_pos (rfl : (0 : Nat) = 0)]
    have hpass : processArticles maxT true (some known) some
        (pre ++ a :: b :: c :: post) ⟨[], [], 0⟩ = .stopped pre := by
      rw [processArticles_all_new maxT known pre (a :: b :: c :: post) [] []
        hpre (by simp) hpreN
        (by simp only [List.length_nil]; omega)]
      rw [show (⟨[] ++ pre, (pre.map (·.id)).reverse ++ [], 0⟩ : ScrapeState)
          = ⟨pre, (pre.map (·.id)).reverse, 0⟩ by simp]
      rw [processArticles_known_step maxT true (some known) some a
        (b :: c :: post) a pre ((pre.map (·.id)).reverse) 0 hmax rfl ha
        (by rw [List.mem_reverse]; exact hanp)
        (by simp [checkerKnown, hka]) (by decide)]
      rw [processArticles_known_step maxT true (some known) some b
        (c :: post) b pre (a.id :: (pre.map (·.id)).reverse) 1 hmax rfl hb
        (by
          rw [List.mem_cons, List.mem_reverse]
          rintro (he | hmem)
          · exact hba he
          · exact hbnp hmem)
        (by simp [checkerKnown, hkb]) (by decide)]
      rw [processArticles_known_stop maxT true (some known) some c post c
        pre (b.id :: a.id :: (pre.map (·.id)).reverse) 2 hmax rfl hc
        (by
          rw [List.mem_cons, List.mem_cons, List.mem_reverse]
          rintro (he | he | hmem)
          · exact hcb he
          · exact hca he
          · exact hcnp hmem)
        (by simp [checkerKnown, hkc]) (by decide)]
    rw [hpass]
  · intro arts ts known maxT hfr hnd hstop
    obtain ⟨l1, l2, l3, hdec, hkn, hcase⟩ :=
      processArticles_stopped_run maxT known arts [] [] 0 ts hfr hnd
        (by simp) hstop
    rcases hcase with hlen3 | ⟨hl1, hge⟩
    · exact ⟨l1, l2, l3, hdec, hlen3, hkn⟩
    · subst hl1
      refine ⟨[], l2.take MAX_CONSECUTIVE_KNOWN,
        l2.drop MAX_CONSECUTIVE_KNOWN ++ l3, ?_, ?_, ?_⟩
      · rw [hdec]
        simp only [List.nil_append]
        rw [← List.append_assoc, List.take_append_drop]
      · rw [List.length_take]
        omega
      · intro q hq
        exact hkn q (List.take_subset _ _ hq)

/-- Concrete oracle and feed items for the C3 witness. -/
def c3Known : String → Bool :=
  fun i => i == "ka" || i == "kb" || i == "kc"

def c3Pre : List RawRecord := [{ emptyRecord with id := "p1" }]

def c3A : RawRecord := { emptyRecord with id := "ka" }

def c3B : RawRecord := { emptyRecord with id := "kb" }

def c3C : RawRecord := { emptyRecord with id := "kc" }

def c3Post : List RawRecord :=
  [{ emptyRecord with id := "n1" }, { emptyRecord with id := "n2" }]

/-- C3, witness: one new record, then three known records, then two new
records the loop must never process. -/
theorem c3_consecutive_known_stop_witness :
    (∀ r ∈ c3Pre, r.id ≠ "" ∧ c3Known r.id = false)
    ∧ (((c3Pre ++ [c3A, c3B, c3C]).map (·.id)).Nodup)
    ∧ (c3Pre.length < 10)
    ∧ scrape_feed
        (fun k => if k = 0 then c3Pre ++ c3A :: c3B :: c3C :: c3Post else [])
        some 10 true (some c3Known) = (c3Pre, 0) :=
  ⟨by decide, by decide, by decide,
    c3_consecutive_known_stop.1 c3Pre c3Post c3A c3B c3C c3Known 10
      (by decide) (by decide) (by decide) (by decide) (by decide)
      (by decide) (by decide) (by decide) (by decide)⟩
